import Mathlib

/-!
Shallow embedding of the Sportradar caching proxy
(`supabase/functions/sportradar-proxy/index.ts`).

The proxy is an edge function with three ingredients:
  * module-level constants (`CACHE_TTL`, `MAX_RETRIES`, `RETRY_DELAYS`),
  * `fetchWithRetry`, a recursive fetch wrapper retrying on HTTP 429 and on
    network errors with a fixed backoff schedule,
  * the `serve` handler: credential check, endpoint check, cache lookup,
    upstream call, JSON parse, cache write, opportunistic sweep.

Modelling conventions:
  * The upstream network is an oracle `String → Nat → FetchOutcome`
    giving, for each request URL, the outcome of the n-th `fetch` attempt.
    A `Response` carries its HTTP status, its text body (what
    `response.text()` yields) and the outcome of `response.json()` —
    `Except String Json`, an error carrying the parse failure's message.
  * `sleep` and the attempt counter are observable effects: `fetchWithRetry`
    returns, next to the JS return value, the number of `fetch` calls made
    and the list of sleep durations, in order.
  * The JS `Map` is an insertion-ordered association list with distinct
    keys; `Map.get` / `Map.set` / `Map.delete`-during-iteration are
    `mapGet` / `mapSet` / `mapSweep`.  `Map.size` is the list length
    (equal under the distinct-key invariant that `mapSet` preserves).
  * `params` is the insertion-ordered field list of a flat JSON object with
    string values (for non-numeric string keys, `JSON.stringify` and object
    spread both preserve insertion order).
  * A single clock value `now` stands for the `Date.now()` calls of one
    invocation.
  * `JSON.stringify` of a response payload is deterministic, so responses
    carry the structured payload itself; byte equality of two serialized
    payloads is equality of the structured values.
-/

/-- JSON values, the payloads the proxy caches and forwards (opaque to it). -/
inductive Json where
  | null : Json
  | bool (b : Bool) : Json
  | num (n : Int) : Json
  | str (s : String) : Json
  | arr (elts : List Json) : Json
  | obj (fields : List (String × Json)) : Json

/-- `const CACHE_TTL = 60000; // 1 minute` -/
def CACHE_TTL : Nat := 60000

/-- `const MAX_RETRIES = 3;` -/
def MAX_RETRIES : Nat := 3

/-- `const RETRY_DELAYS = [1000, 2000, 4000];` -/
def RETRY_DELAYS : List Nat := [1000, 2000, 4000]

/-- The upstream's answer to one `fetch(url, ...)` call: either a response
(status, text body, and the result of parsing the body as JSON) or a thrown
network error carrying a message. -/
inductive FetchOutcome where
  | ok (status : Nat) (text : String) (parsed : Except String Json) : FetchOutcome
  | err (msg : String) : FetchOutcome

/-- A received upstream response, as the handler observes it. -/
structure Resp where
  status : Nat
  text : String
  parsed : Except String Json

/-- Result of `fetchWithRetry`: the JS return value (a response, or the
rethrown network error), together with the observable effects — how many
`fetch` calls were made and which `sleep` durations ran, in order. -/
structure FetchTrace where
  result : Except String Resp
  attempts : Nat
  delays : List Nat

/-- `fetchWithRetry(url, attempt)`, with the network supplied as an oracle
`o : Nat → FetchOutcome` (the outcome of the n-th attempt for the fixed
`url`).  On a 429 with retries left, sleep `RETRY_DELAYS[attempt]` and
recurse; on a thrown error with retries left, same; otherwise return the
response (any non-429 status, 2xx or not, returns at once) or rethrow. -/
def fetchWithRetry (o : Nat → FetchOutcome) (attempt : Nat) : FetchTrace :=
  match o attempt with
  | .ok status text parsed =>
      if h : status = 429 ∧ attempt < MAX_RETRIES then
        let rest := fetchWithRetry o (attempt + 1)
        ⟨rest.result, rest.attempts + 1, RETRY_DELAYS.getD attempt 0 :: rest.delays⟩
      else
        ⟨.ok ⟨status, text, parsed⟩, 1, []⟩
  | .err msg =>
      if h : attempt < MAX_RETRIES then
        let rest := fetchWithRetry o (attempt + 1)
        ⟨rest.result, rest.attempts + 1, RETRY_DELAYS.getD attempt 0 :: rest.delays⟩
      else
        ⟨.error msg, 1, []⟩
termination_by MAX_RETRIES - attempt
decreasing_by
  · omega
  · omega

/-- One cached value: `{ data: any; timestamp: number }`. -/
structure CacheEntry where
  data : Json
  timestamp : Nat

/-- `const cache = new Map<string, { data: any; timestamp: number }>()`,
modelled as an insertion-ordered association list. -/
abbrev Cache := List (String × CacheEntry)

/-- `cache.get(k)`: the first (in a well-formed map, only) entry for `k`. -/
def mapGet : Cache → String → Option CacheEntry
  | [], _ => none
  | e :: rest, k => if e.1 = k then some e.2 else mapGet rest k

/-- `cache.set(k, v)`: overwrite in place when the key is present (a JS
`Map` keeps the original insertion position), otherwise append. -/
def mapSet : Cache → String → CacheEntry → Cache
  | [], k, v => [(k, v)]
  | e :: rest, k, v => if e.1 = k then (k, v) :: rest else e :: mapSet rest k v

/-- The cleanup loop: iterate over `cache.entries()` and delete every entry
with `now - value.timestamp > CACHE_TTL * 2`. -/
def mapSweep (c : Cache) (now : Nat) : Cache :=
  c.filter fun e => ! decide (now - e.2.timestamp > CACHE_TTL * 2)

/-- `JSON.stringify(params)` for the flat string-valued `params` object,
rendering the fields in insertion order.  (The character escaping that
`JSON.stringify` applies inside keys and values is not modelled; no claim
depends on it.) -/
def jsonStringifyObj (ps : List (String × String)) : String :=
  "\x7b" ++ String.intercalate ","
    (ps.map fun p => "\"" ++ p.1 ++ "\":\"" ++ p.2 ++ "\"") ++ "\x7d"

/-- ``const cacheKey = `${endpoint}-${JSON.stringify(params)}` ``. -/
def cacheKey (endpoint : String) (params : List (String × String)) : String :=
  endpoint ++ "-" ++ jsonStringifyObj params

/-- The object literal `{ ...params, api_key: API_KEY }`: the fields of
`params` in order, then `api_key`; if `params` already has an `api_key`
field it keeps its position and its value is overwritten. -/
def objSpreadSet (ps : List (String × String)) (k v : String) :
    List (String × String) :=
  if ps.any (fun p => p.1 == k) then
    ps.map fun p => if p.1 == k then (k, v) else p
  else
    ps ++ [(k, v)]

/-- `new URLSearchParams(obj).toString()` (percent-encoding not modelled;
no claim depends on it). -/
def searchParamsToString (ps : List (String × String)) : String :=
  String.intercalate "&" (ps.map fun p => p.1 ++ "=" ++ p.2)

/-- `response.ok`: status in the inclusive range 200–299. -/
def respOk (status : Nat) : Bool :=
  decide (200 ≤ status ∧ status < 300)

/-- One request body after `await req.json()`: the optional `endpoint`
field (`none` = absent/undefined) and the `params` object (destructuring
default `params = {}`). -/
structure ReqBody where
  endpoint : Option String
  params : List (String × String)

/-- JS falsiness of the destructured `endpoint` value, as tested by
`if (!endpoint)`: absent (undefined) or the empty string. -/
def endpointFalsy : Option String → Bool
  | none => true
  | some s => s == ""

/-- The JSON body of the proxy's HTTP response: either a forwarded payload
(`JSON.stringify(data)`) or one of the error objects the handler builds
(`error` always present, `message` / `endpoint` fields when the code adds
them). -/
inductive RespBody where
  | payload (data : Json) : RespBody
  | errorBody (error : String) (message : Option String) (endpoint : Option String) : RespBody

/-- Everything observable about one invocation of the `serve` handler: the
HTTP status, the `X-Cache` header if set, the response body, the cache
after the invocation, and how many upstream `fetch` calls and sleeps the
invocation performed. -/
structure HandleResult where
  status : Nat
  xCache : Option String
  body : RespBody
  cacheAfter : Cache
  attempts : Nat
  delays : List Nat

/-- ``const fullUrl = `https://api.sportradar.com${endpoint}?${urlParams.toString()}` ``. -/
def fullUrlOf (key endpoint : String) (params : List (String × String)) : String :=
  "https://api.sportradar.com" ++ endpoint ++ "?" ++
    searchParamsToString (objSpreadSet params "api_key" key)

/-- The cache-miss continuation of `handle` (lines 89–139 of the source):
build the upstream URL, call `fetchWithRetry`, surface upstream errors,
parse, write the cache entry, sweep, and return the payload. -/
def handleMiss (key endpoint : String) (params : List (String × String))
    (ck : String) (now : Nat) (cache : Cache)
    (net : String → Nat → FetchOutcome) : HandleResult :=
  let tr := fetchWithRetry (net (fullUrlOf key endpoint params)) 0
  match tr.result with
  | .error msg =>
      ⟨500, none, .errorBody "Proxy error" (some msg) none, cache,
        tr.attempts, tr.delays⟩
  | .ok r =>
      if respOk r.status then
        match r.parsed with
        | .error msg =>
            ⟨500, none, .errorBody "Proxy error" (some msg) none, cache,
              tr.attempts, tr.delays⟩
        | .ok data =>
            let cache1 := mapSet cache ck ⟨data, now⟩
            let cache2 := if cache1.length > 100 then mapSweep cache1 now else cache1
            ⟨200, some "MISS", .payload data, cache2, tr.attempts, tr.delays⟩
      else
        ⟨r.status, none,
          .errorBody ("API Error: " ++ toString r.status) (some r.text) (some endpoint),
          cache, tr.attempts, tr.delays⟩

/-- The `serve` handler for a non-OPTIONS request whose JSON body parsed as
`req`.  `apiKey` is `Deno.env.get('SPORTRADAR_API_KEY')`; `now` is the
invocation's clock; `cache` the module-level map; `net url n` the outcome
of the n-th `fetch` of `url`.  The top-level `catch` is modelled where each
`throw` occurs: a missing credential, a rethrown network error and a JSON
parse failure each yield the 500 `Proxy error` response with the thrown
error's message. -/
def handle (apiKey : Option String) (req : ReqBody) (now : Nat) (cache : Cache)
    (net : String → Nat → FetchOutcome) : HandleResult :=
  match apiKey with
  | none =>
      ⟨500, none,
        .errorBody "Proxy error" (some "SPORTRADAR_API_KEY not configured") none,
        cache, 0, []⟩
  | some key =>
      if endpointFalsy req.endpoint then
        ⟨400, none, .errorBody "Endpoint is required" none none, cache, 0, []⟩
      else
        let endpoint := req.endpoint.getD ""
        let ck := cacheKey endpoint req.params
        let cached := mapGet cache ck
        match cached with
        | some entry =>
            if now - entry.timestamp < CACHE_TTL then
              ⟨200, some "HIT", .payload entry.data, cache, 0, []⟩
            else
              handleMiss key endpoint req.params ck now cache net
        | none =>
            handleMiss key endpoint req.params ck now cache net

/-! ### Basic lemmas about the retry loop and the cache map -/

/-- `fetchWithRetry` always performs at least one `fetch` call. -/
theorem fetchWithRetry_attempts_pos (o : Nat → FetchOutcome) (a : Nat) :
    1 ≤ (fetchWithRetry o a).attempts := by
  rw [fetchWithRetry]
  cases o a <;> dsimp only <;> split <;> simp

/-- Whatever `fetchWithRetry` returns came from some attempt of the oracle:
a returned response was the oracle's answer to some attempt, and a rethrown
error was thrown by some attempt. -/
theorem fetchWithRetry_result_from (o : Nat → FetchOutcome) (a : Nat) :
    (∃ n s t p, o n = .ok s t p ∧ (fetchWithRetry o a).result = .ok ⟨s, t, p⟩) ∨
    (∃ n m, o n = .err m ∧ (fetchWithRetry o a).result = .error m) := by
  have main : ∀ fuel a, MAX_RETRIES - a ≤ fuel →
      (∃ n s t p, o n = .ok s t p ∧ (fetchWithRetry o a).result = .ok ⟨s, t, p⟩) ∨
      (∃ n m, o n = .err m ∧ (fetchWithRetry o a).result = .error m) := by
    intro fuel
    induction fuel with
    | zero =>
        intro a ha
        rw [fetchWithRetry]
        rcases ho : o a with ⟨s, t, p⟩ | m
        · have hs : ¬ (s = 429 ∧ a < MAX_RETRIES) := by omega
          simp only [hs, dite_false]
          exact .inl ⟨a, s, t, p, ho, rfl⟩
        · have hs : ¬ a < MAX_RETRIES := by omega
          simp only [hs, dite_false]
          exact .inr ⟨a, m, ho, rfl⟩
    | succ fuel ih =>
        intro a ha
        rw [fetchWithRetry]
        rcases ho : o a with ⟨s, t, p⟩ | m
        · by_cases hs : s = 429 ∧ a < MAX_RETRIES
          · simp only [hs, dite_true]
            exact ih (a + 1) (by omega)
          · simp only [hs, dite_false]
            exact .inl ⟨a, s, t, p, ho, rfl⟩
        · by_cases hs : a < MAX_RETRIES
          · simp only [hs, dite_true]
            exact ih (a + 1) (by omega)
          · simp only [hs, dite_false]
            exact .inr ⟨a, m, ho, rfl⟩
  exact main (MAX_RETRIES - a) a le_rfl

theorem mapGet_mapSet_self (c : Cache) (k : String) (v : CacheEntry) :
    mapGet (mapSet c k v) k = some v := by
  induction c with
  | nil => simp [mapGet, mapSet]
  | cons e rest ih =>
      by_cases h : e.1 = k
      · simp [mapGet, mapSet, h]
      · simp [mapGet, mapSet, h, ih]

theorem mapGet_mapSet_ne (c : Cache) (k k' : String) (v : CacheEntry)
    (h : k' ≠ k) : mapGet (mapSet c k' v) k = mapGet c k := by
  induction c with
  | nil => simp [mapGet, mapSet, h]
  | cons e rest ih =>
      by_cases he : e.1 = k'
      · simp [mapGet, mapSet, he, h]
      · simp only [mapSet, he, if_false]
        by_cases hek : e.1 = k
        · simp [mapGet, hek]
        · simp [mapGet, hek, ih]

/-- An entry the sweep condition does not select survives the sweep. -/
theorem mapGet_mapSweep_kept (c : Cache) (now : Nat) (k : String)
    (v : CacheEntry) (hv : mapGet c k = some v)
    (hfresh : ¬ now - v.timestamp > CACHE_TTL * 2) :
    mapGet (mapSweep c now) k = some v := by
  induction c with
  | nil => simp [mapGet] at hv
  | cons e rest ih =>
      by_cases he : e.1 = k
      · simp only [mapGet, he, if_true] at hv
        obtain rfl : e.2 = v := by injection hv
        simp [mapSweep, List.filter, hfresh, mapGet, he]
      · simp only [mapGet, he, if_false] at hv
        by_cases hkeep : now - e.2.timestamp > CACHE_TTL * 2
        · simpa [mapSweep, List.filter, hkeep] using ih hv
        · have := ih hv
          simp only [mapSweep, List.filter] at this ⊢
          simp [hkeep, mapGet, he, this]

/-- An entry that vanishes in the sweep was selected by the sweep
condition (its age exceeded `CACHE_TTL * 2`). -/
theorem mapGet_mapSweep_gone (c : Cache) (now : Nat) (k : String)
    (v : CacheEntry) (hv : mapGet c k = some v)
    (hgone : mapGet (mapSweep c now) k = none) :
    now - v.timestamp > CACHE_TTL * 2 := by
  by_contra h
  rw [mapGet_mapSweep_kept c now k v hv h] at hgone
  exact Option.noConfusion hgone

/-- Distinctness of the keys of the cache map (the JS `Map` invariant). -/
def keysNodup (c : Cache) : Prop :=
  c.Pairwise fun a b => a.1 ≠ b.1

theorem mapGet_eq_none_of_all_ne (c : Cache) (k : String)
    (h : ∀ f ∈ c, f.1 ≠ k) : mapGet c k = none := by
  induction c with
  | nil => simp [mapGet]
  | cons g tail ih =>
      have hg : g.1 ≠ k := h g (by simp)
      simp only [mapGet, hg, if_false]
      exact ih (fun f hf => h f (by simp [hf]))

/-- In a well-formed map, an entry the sweep condition selects is gone
after the sweep. -/
theorem mapGet_mapSweep_stale (c : Cache) (now : Nat) (k : String)
    (v : CacheEntry) (hnd : keysNodup c) (hv : mapGet c k = some v)
    (hstale : now - v.timestamp > CACHE_TTL * 2) :
    mapGet (mapSweep c now) k = none := by
  induction c with
  | nil => simp [mapGet] at hv
  | cons e rest ih =>
      have hnd' : keysNodup rest := (List.pairwise_cons.mp hnd).2
      by_cases he : e.1 = k
      · simp only [mapGet, he, if_true] at hv
        obtain rfl : e.2 = v := by injection hv
        have hnotin : ∀ f ∈ rest, f.1 ≠ k := by
          intro f hf
          have := (List.pairwise_cons.mp hnd).1 f hf
          rw [he] at this
          exact fun hk => this hk.symm
        have hnone : mapGet (mapSweep rest now) k = none :=
          mapGet_eq_none_of_all_ne _ _ (fun f hf =>
            hnotin f (List.mem_of_mem_filter hf))
        simpa [mapSweep, List.filter, hstale] using hnone
      · simp only [mapGet, he, if_false] at hv
        have := ih hnd' hv
        by_cases hkeep : now - e.2.timestamp > CACHE_TTL * 2
        · simpa [mapSweep, List.filter, hkeep] using this
        · simp only [mapSweep, List.filter] at this ⊢
          simp [hkeep, mapGet, he, this]

theorem mapSet_length_ge (c : Cache) (k : String) (v : CacheEntry) :
    c.length ≤ (mapSet c k v).length := by
  induction c with
  | nil => simp [mapSet]
  | cons e rest ih =>
      by_cases h : e.1 = k
      · simp [mapSet, h]
      · simpa [mapSet, h] using ih

theorem mapSet_mem_keys (c : Cache) (k : String) (v : CacheEntry) :
    ∀ f ∈ mapSet c k v, f.1 = k ∨ ∃ g ∈ c, f.1 = g.1 := by
  induction c with
  | nil =>
      intro f hf
      simp only [mapSet, List.mem_singleton] at hf
      exact .inl (by simp [hf])
  | cons e rest ih =>
      intro f hf
      by_cases he : e.1 = k
      · simp only [mapSet, he, if_true, List.mem_cons] at hf
        rcases hf with hf | hf
        · exact .inl (by simp [hf])
        · exact .inr ⟨f, by simp [hf]⟩
      · simp only [mapSet, he, if_false, List.mem_cons] at hf
        rcases hf with hf | hf
        · exact .inr ⟨e, by simp, by simp [hf]⟩
        · rcases ih f hf with h | ⟨g, hg, hfg⟩
          · exact .inl h
          · exact .inr ⟨g, by simp [hg], hfg⟩

theorem mapSet_keysNodup (c : Cache) (k : String) (v : CacheEntry)
    (hnd : keysNodup c) : keysNodup (mapSet c k v) := by
  induction c with
  | nil => simp [mapSet, keysNodup]
  | cons e rest ih =>
      obtain ⟨hhead, htail⟩ := List.pairwise_cons.mp hnd
      by_cases he : e.1 = k
      · simp only [mapSet, he, if_true]
        refine List.pairwise_cons.mpr ⟨?_, htail⟩
        intro f hf
        have := hhead f hf
        simpa [he] using this
      · simp only [mapSet, he, if_false]
        refine List.pairwise_cons.mpr ⟨?_, ih htail⟩
        intro f hf
        rcases mapSet_mem_keys rest k v f hf with h | ⟨g, hg, hfg⟩
        · rw [h]; exact he
        · rw [hfg]; exact hhead g hg

/-! ### Shape lemmas: the handler's exhaustive case analysis -/

/-- Exhaustive description of `handleMiss`: a rethrown network error, an
upstream non-2xx error, a JSON parse failure, or the successful path with
its cache write and conditional sweep. -/
theorem handleMiss_shape (key endpoint : String) (params : List (String × String))
    (ck : String) (now : Nat) (c : Cache) (net : String → Nat → FetchOutcome) :
    (∃ m, (fetchWithRetry (net (fullUrlOf key endpoint params)) 0).result = .error m ∧
      handleMiss key endpoint params ck now c net =
        ⟨500, none, .errorBody "Proxy error" (some m) none, c,
          (fetchWithRetry (net (fullUrlOf key endpoint params)) 0).attempts,
          (fetchWithRetry (net (fullUrlOf key endpoint params)) 0).delays⟩) ∨
    (∃ r, (fetchWithRetry (net (fullUrlOf key endpoint params)) 0).result = .ok r ∧
      respOk r.status = false ∧
      handleMiss key endpoint params ck now c net =
        ⟨r.status, none,
          .errorBody ("API Error: " ++ toString r.status) (some r.text) (some endpoint), c,
          (fetchWithRetry (net (fullUrlOf key endpoint params)) 0).attempts,
          (fetchWithRetry (net (fullUrlOf key endpoint params)) 0).delays⟩) ∨
    (∃ r m, (fetchWithRetry (net (fullUrlOf key endpoint params)) 0).result = .ok r ∧
      respOk r.status = true ∧ r.parsed = .error m ∧
      handleMiss key endpoint params ck now c net =
        ⟨500, none, .errorBody "Proxy error" (some m) none, c,
          (fetchWithRetry (net (fullUrlOf key endpoint params)) 0).attempts,
          (fetchWithRetry (net (fullUrlOf key endpoint params)) 0).delays⟩) ∨
    (∃ r data, (fetchWithRetry (net (fullUrlOf key endpoint params)) 0).result = .ok r ∧
      respOk r.status = true ∧ r.parsed = .ok data ∧
      handleMiss key endpoint params ck now c net =
        ⟨200, some "MISS", .payload data,
          (if (mapSet c ck ⟨data, now⟩).length > 100
           then mapSweep (mapSet c ck ⟨data, now⟩) now
           else mapSet c ck ⟨data, now⟩),
          (fetchWithRetry (net (fullUrlOf key endpoint params)) 0).attempts,
          (fetchWithRetry (net (fullUrlOf key endpoint params)) 0).delays⟩) := by
  rcases hr : (fetchWithRetry (net (fullUrlOf key endpoint params)) 0).result with m | r
  · exact .inl ⟨m, rfl, by simp [handleMiss, hr]⟩
  · by_cases hok : respOk r.status
    · rcases hp : r.parsed with m | data
      · exact .inr (.inr (.inl ⟨r, m, rfl, hok, hp, by simp [handleMiss, hr, hok, hp]⟩))
      · exact .inr (.inr (.inr ⟨r, data, rfl, hok, hp, by simp [handleMiss, hr, hok, hp]⟩))
    · refine .inr (.inl ⟨r, rfl, by simpa using hok, ?_⟩)
      simp [handleMiss, hr, hok]

/-- On a cache hit (`endpoint` truthy, fresh entry), `handle` returns the
cached payload with the `HIT` header and touches nothing. -/
theorem handle_eq_hit (key : String) (req : ReqBody) (now : Nat) (c : Cache)
    (net : String → Nat → FetchOutcome) (e : CacheEntry)
    (hf : endpointFalsy req.endpoint = false)
    (hg : mapGet c (cacheKey (req.endpoint.getD "") req.params) = some e)
    (hfresh : now - e.timestamp < CACHE_TTL) :
    handle (some key) req now c net =
      ⟨200, some "HIT", .payload e.data, c, 0, []⟩ := by
  simp [handle, hf, hg, hfresh]

/-- On a cache miss (no entry, or only a stale one), `handle` continues
with `handleMiss`. -/
theorem handle_eq_miss (key : String) (req : ReqBody) (now : Nat) (c : Cache)
    (net : String → Nat → FetchOutcome)
    (hf : endpointFalsy req.endpoint = false)
    (hstale : ∀ e, mapGet c (cacheKey (req.endpoint.getD "") req.params) = some e →
      CACHE_TTL ≤ now - e.timestamp) :
    handle (some key) req now c net =
      handleMiss key (req.endpoint.getD "") req.params
        (cacheKey (req.endpoint.getD "") req.params) now c net := by
  rcases hg : mapGet c (cacheKey (req.endpoint.getD "") req.params) with _ | e
  · simp [handle, hf, hg]
  · have hs := hstale e hg
    simp [handle, hf, hg, Nat.not_lt.mpr hs]

/-- Exhaustive description of `handle`'s four entry branches: missing
credential, falsy endpoint, fresh cache hit, or the miss continuation. -/
theorem handle_shape (apiKey : Option String) (req : ReqBody) (now : Nat)
    (c : Cache) (net : String → Nat → FetchOutcome) :
    (apiKey = none ∧ handle apiKey req now c net =
      ⟨500, none,
        .errorBody "Proxy error" (some "SPORTRADAR_API_KEY not configured") none,
        c, 0, []⟩) ∨
    (∃ key, apiKey = some key ∧ endpointFalsy req.endpoint = true ∧
      handle apiKey req now c net =
        ⟨400, none, .errorBody "Endpoint is required" none none, c, 0, []⟩) ∨
    (∃ key e, apiKey = some key ∧ endpointFalsy req.endpoint = false ∧
      mapGet c (cacheKey (req.endpoint.getD "") req.params) = some e ∧
      now - e.timestamp < CACHE_TTL ∧
      handle apiKey req now c net = ⟨200, some "HIT", .payload e.data, c, 0, []⟩) ∨
    (∃ key, apiKey = some key ∧ endpointFalsy req.endpoint = false ∧
      (∀ e, mapGet c (cacheKey (req.endpoint.getD "") req.params) = some e →
        CACHE_TTL ≤ now - e.timestamp) ∧
      handle apiKey req now c net =
        handleMiss key (req.endpoint.getD "") req.params
          (cacheKey (req.endpoint.getD "") req.params) now c net) := by
  rcases apiKey with _ | key
  · exact .inl ⟨rfl, by simp [handle]⟩
  · by_cases hf : endpointFalsy req.endpoint
    · exact .inr (.inl ⟨key, rfl, hf, by simp [handle, hf]⟩)
    · have hf' : endpointFalsy req.endpoint = false := by simpa using hf
      rcases hg : mapGet c (cacheKey (req.endpoint.getD "") req.params) with _ | e
      · have hstale : ∀ e, mapGet c (cacheKey (req.endpoint.getD "") req.params) = some e →
            CACHE_TTL ≤ now - e.timestamp := by
          intro e he
          rw [hg] at he
          exact Option.noConfusion he
        exact .inr (.inr (.inr ⟨key, rfl, hf', fun e he => absurd he (by simp),
          handle_eq_miss key req now c net hf' hstale⟩))
      · by_cases hfresh : now - e.timestamp < CACHE_TTL
        · exact .inr (.inr (.inl ⟨key, e, rfl, hf', rfl, hfresh,
            handle_eq_hit key req now c net e hf' hg hfresh⟩))
        · have hstale : ∀ e', mapGet c (cacheKey (req.endpoint.getD "") req.params) = some e' →
              CACHE_TTL ≤ now - e'.timestamp := by
            intro e' he'
            rw [hg] at he'
            obtain rfl : e = e' := by injection he'
            omega
          refine .inr (.inr (.inr ⟨key, rfl, hf', ?_,
            handle_eq_miss key req now c net hf' hstale⟩))
          intro e' he'
          obtain rfl : e = e' := by injection he'
          omega

/-- The number of `fetch` calls an invocation of `handleMiss` makes is the
number its `fetchWithRetry` call makes, on every path. -/
theorem handleMiss_attempts (key endpoint : String)
    (params : List (String × String)) (ck : String) (now : Nat) (c : Cache)
    (net : String → Nat → FetchOutcome) :
    (handleMiss key endpoint params ck now c net).attempts =
      (fetchWithRetry (net (fullUrlOf key endpoint params)) 0).attempts := by
  rcases handleMiss_shape key endpoint params ck now c net with
    ⟨m, _, hm⟩ | ⟨r, _, _, hm⟩ | ⟨r, m, _, _, _, hm⟩ | ⟨r, d, _, _, _, hm⟩ <;> rw [hm]

/-! ### The claims -/

/-- C2: against an upstream that answers HTTP 429 on every attempt,
`fetchWithRetry` performs exactly `1 + MAX_RETRIES = 4` fetch attempts,
sleeping `RETRY_DELAYS = [1000, 2000, 4000]` milliseconds before attempts
1, 2 and 3, and returns the final (fourth) 429 response to the caller. -/
theorem retry_exhausted_on_429 (o : Nat → FetchOutcome)
    (t : Nat → String) (p : Nat → Except String Json)
    (h : ∀ n, o n = .ok 429 (t n) (p n)) :
    fetchWithRetry o 0 =
      ⟨.ok ⟨429, t MAX_RETRIES, p MAX_RETRIES⟩, 1 + MAX_RETRIES, RETRY_DELAYS⟩ := by
  simp [fetchWithRetry, h, MAX_RETRIES, RETRY_DELAYS]

/-- Witness for C2: a concrete always-429 upstream. -/
theorem retry_exhausted_on_429_witness :
    fetchWithRetry (fun _ => .ok 429 "limited" (.error "rate")) 0 =
      ⟨.ok ⟨429, "limited", .error "rate"⟩, 1 + MAX_RETRIES, RETRY_DELAYS⟩ :=
  retry_exhausted_on_429 (fun _ => .ok 429 "limited" (.error "rate"))
    (fun _ => "limited") (fun _ => .error "rate") (fun _ => rfl)

/-- C6: a first response with a non-2xx status other than 429 is returned
unchanged after exactly one attempt, with no retry and no backoff sleep. -/
theorem no_retry_on_non429 (o : Nat → FetchOutcome) (s : Nat) (t : String)
    (p : Except String Json) (h0 : o 0 = .ok s t p)
    (hnon2xx : respOk s = false) (hs : s ≠ 429) :
    fetchWithRetry o 0 = ⟨.ok ⟨s, t, p⟩, 1, []⟩ := by
  simp [fetchWithRetry, h0, hs]

/-- Witness for C6: a concrete 404 first response. -/
theorem no_retry_on_non429_witness :
    fetchWithRetry (fun _ => .ok 404 "not found" (.error "nf")) 0 =
      ⟨.ok ⟨404, "not found", .error "nf"⟩, 1, []⟩ :=
  no_retry_on_non429 (fun _ => .ok 404 "not found" (.error "nf")) 404
    "not found" (.error "nf") rfl (by decide) (by decide)

/-- C7: with the credential configured, a request with no `endpoint` field
yields HTTP 400 with body `{ error: "Endpoint is required" }`, no cache
change, zero upstream fetch calls and zero sleeps. -/
theorem missing_endpoint_400 (key : String) (ps : List (String × String))
    (now : Nat) (c : Cache) (net : String → Nat → FetchOutcome) :
    handle (some key) ⟨none, ps⟩ now c net =
      ⟨400, none, .errorBody "Endpoint is required" none none, c, 0, []⟩ := rfl

/-- C9: a request whose `endpoint` is the empty string is handled exactly
like an absent endpoint — same 400 response, same body, no upstream call —
because `!endpoint` is true for `""`. -/
theorem empty_endpoint_like_absent (key : String) (ps : List (String × String))
    (now : Nat) (c : Cache) (net : String → Nat → FetchOutcome) :
    handle (some key) ⟨some "", ps⟩ now c net =
      ⟨400, none, .errorBody "Endpoint is required" none none, c, 0, []⟩ ∧
    handle (some key) ⟨some "", ps⟩ now c net =
      handle (some key) ⟨none, ps⟩ now c net :=
  ⟨rfl, rfl⟩

/-- C3 counterexample: two `params` objects with the same key–value pairs
in different insertion orders produce different cache keys, because the
key embeds `JSON.stringify(params)`, which renders fields in insertion
order. -/
theorem cacheKey_order_dependent_cx :
    ([("a", "1"), ("b", "2")] : List (String × String)).Perm
        [("b", "2"), ("a", "1")] ∧
    cacheKey "/e" [("a", "1"), ("b", "2")] ≠
      cacheKey "/e" [("b", "2"), ("a", "1")] := by
  constructor
  · decide
  · decide

/-- C3 (amended): the cache key is `endpoint`, a `-`, and the
order-sensitive serialization of `params`; for a fixed endpoint two
`params` objects get the same key exactly when their insertion-order
serializations coincide.  (The claimed order-insensitivity does not hold:
see the counterexample.) -/
theorem cacheKey_eq_iff (e : String) (p1 p2 : List (String × String)) :
    cacheKey e p1 = cacheKey e p2 ↔
      jsonStringifyObj p1 = jsonStringifyObj p2 := by
  constructor
  · intro h
    have hd := congrArg String.data h
    simp only [cacheKey, String.data_append, List.append_assoc] at hd
    have h1 := List.append_cancel_left hd
    have h2 := List.append_cancel_left h1
    exact String.ext h2
  · intro h
    simp [cacheKey, h]

/-- C1: if `handle` served a request as a cache `MISS` at time `t0`
(fetching upstream and storing the payload under the request's cache key),
then an identical request at time `t1` with `t1 - t0 < CACHE_TTL` makes no
upstream fetch call and returns the same payload with the `HIT` indicator,
while with `t1 - t0 ≥ CACHE_TTL` a second upstream fetch call occurs. -/
theorem cache_freshness (apiKey : Option String) (req : ReqBody)
    (t0 t1 : Nat) (c0 : Cache) (net0 net1 : String → Nat → FetchOutcome)
    (hmiss : (handle apiKey req t0 c0 net0).xCache = some "MISS")
    (h01 : t0 ≤ t1) :
    (t1 - t0 < CACHE_TTL →
      (handle apiKey req t1 (handle apiKey req t0 c0 net0).cacheAfter net1).attempts = 0 ∧
      (handle apiKey req t1 (handle apiKey req t0 c0 net0).cacheAfter net1).xCache = some "HIT" ∧
      (handle apiKey req t1 (handle apiKey req t0 c0 net0).cacheAfter net1).body =
        (handle apiKey req t0 c0 net0).body) ∧
    (CACHE_TTL ≤ t1 - t0 →
      1 ≤ (handle apiKey req t1 (handle apiKey req t0 c0 net0).cacheAfter net1).attempts) := by
  rcases handle_shape apiKey req t0 c0 net0 with
    ⟨_, h⟩ | ⟨key, _, _, h⟩ | ⟨key, e, _, _, _, _, h⟩ | ⟨key, hk, hf, _, h⟩
  · rw [h] at hmiss; simp at hmiss
  · rw [h] at hmiss; simp at hmiss
  · rw [h] at hmiss; simp at hmiss
  · subst hk
    rcases handleMiss_shape key (req.endpoint.getD "") req.params
        (cacheKey (req.endpoint.getD "") req.params) t0 c0 net0 with
      ⟨m, _, hm⟩ | ⟨r, _, _, hm⟩ | ⟨r, m, _, _, _, hm⟩ | ⟨r, data, _, _, _, hm⟩
    · rw [h, hm] at hmiss; simp at hmiss
    · rw [h, hm] at hmiss; simp at hmiss
    · rw [h, hm] at hmiss; simp at hmiss
    · rw [h, hm]
      dsimp only
      set ck := cacheKey (req.endpoint.getD "") req.params with hck
      have hget : mapGet
          (if (mapSet c0 ck ⟨data, t0⟩).length > 100
            then mapSweep (mapSet c0 ck ⟨data, t0⟩) t0
            else mapSet c0 ck ⟨data, t0⟩) ck = some ⟨data, t0⟩ := by
        have h1 := mapGet_mapSet_self c0 ck ⟨data, t0⟩
        by_cases hlen : (mapSet c0 ck ⟨data, t0⟩).length > 100
        · rw [if_pos hlen]
          exact mapGet_mapSweep_kept _ t0 ck _ h1 (by simp)
        · rw [if_neg hlen]; exact h1
      constructor
      · intro hfresh
        have hhit := handle_eq_hit key req t1
          (if (mapSet c0 ck ⟨data, t0⟩).length > 100
            then mapSweep (mapSet c0 ck ⟨data, t0⟩) t0
            else mapSet c0 ck ⟨data, t0⟩) net1 ⟨data, t0⟩ hf hget hfresh
        rw [hhit]
        exact ⟨rfl, rfl, rfl⟩
      · intro hstale
        have hmiss2 := handle_eq_miss key req t1
          (if (mapSet c0 ck ⟨data, t0⟩).length > 100
            then mapSweep (mapSet c0 ck ⟨data, t0⟩) t0
            else mapSet c0 ck ⟨data, t0⟩) net1 hf (fun e' he' => by
              rw [hget] at he'
              obtain rfl : (⟨data, t0⟩ : CacheEntry) = e' := by injection he'
              exact hstale)
        rw [hmiss2, handleMiss_attempts]
        exact fetchWithRetry_attempts_pos _ 0

/-- Witness for C1: a concrete miss at time 0 followed by an identical
request at time 1. -/
theorem cache_freshness_witness :
    (handle (some "k") ⟨some "/e", []⟩ 0 []
        (fun _ _ => .ok 200 "0" (.ok .null))).xCache = some "MISS" ∧
    (0 : Nat) ≤ 1 ∧
    ((1 : Nat) - 0 < CACHE_TTL →
      (handle (some "k") ⟨some "/e", []⟩ 1
        (handle (some "k") ⟨some "/e", []⟩ 0 []
          (fun _ _ => .ok 200 "0" (.ok .null))).cacheAfter
        (fun _ _ => .err "down")).attempts = 0 ∧
      (handle (some "k") ⟨some "/e", []⟩ 1
        (handle (some "k") ⟨some "/e", []⟩ 0 []
          (fun _ _ => .ok 200 "0" (.ok .null))).cacheAfter
        (fun _ _ => .err "down")).xCache = some "HIT" ∧
      (handle (some "k") ⟨some "/e", []⟩ 1
        (handle (some "k") ⟨some "/e", []⟩ 0 []
          (fun _ _ => .ok 200 "0" (.ok .null))).cacheAfter
        (fun _ _ => .err "down")).body =
        (handle (some "k") ⟨some "/e", []⟩ 0 []
          (fun _ _ => .ok 200 "0" (.ok .null))).body) ∧
    (CACHE_TTL ≤ (1 : Nat) - 0 →
      1 ≤ (handle (some "k") ⟨some "/e", []⟩ 1
        (handle (some "k") ⟨some "/e", []⟩ 0 []
          (fun _ _ => .ok 200 "0" (.ok .null))).cacheAfter
        (fun _ _ => .err "down")).attempts) := by
  refine ⟨?_, by decide, ?_⟩
  · simp [handle, handleMiss, fetchWithRetry, respOk, endpointFalsy, mapGet]
  · exact cache_freshness (some "k") ⟨some "/e", []⟩ 0 1 []
      (fun _ _ => .ok 200 "0" (.ok .null)) (fun _ _ => .err "down")
      (by simp [handle, handleMiss, fetchWithRetry, respOk, endpointFalsy, mapGet])
      (by decide)

theorem mapSet_length_absent (c : Cache) (k : String) (v : CacheEntry)
    (h : mapGet c k = none) : (mapSet c k v).length = c.length + 1 := by
  induction c with
  | nil => simp [mapSet]
  | cons e rest ih =>
      by_cases he : e.1 = k
      · simp [mapGet, he] at h
      · simp only [mapGet, he, if_false] at h
        simp [mapSet, he, ih h]

/-- C4 counterexample: the cleanup runs only on the cache-miss path (after
`cache.set`), never on the hit path, so "before returning from any
successful path" fails.  Concretely: at `now = 150000` ms the cache holds
101 entries — the request's own key, freshly written at `now`, plus 100
entries of age 150 s `> CACHE_TTL * 2`.  The request is a successful HIT,
the count exceeds the soft capacity of 100, yet the cache is returned
unchanged: no stale entry is evicted. -/
theorem eviction_skipped_on_hit_cx :
    (handle (some "k") ⟨some "/e", []⟩ 150000
      ((cacheKey "/e" [], (⟨Json.null, 150000⟩ : CacheEntry)) ::
        (List.range 100).map (fun i => (toString i, ⟨Json.null, 0⟩)))
      (fun _ _ => .err "down")).status = 200 ∧
    (handle (some "k") ⟨some "/e", []⟩ 150000
      ((cacheKey "/e" [], (⟨Json.null, 150000⟩ : CacheEntry)) ::
        (List.range 100).map (fun i => (toString i, ⟨Json.null, 0⟩)))
      (fun _ _ => .err "down")).xCache = some "HIT" ∧
    100 < (((cacheKey "/e" [], (⟨Json.null, 150000⟩ : CacheEntry)) ::
        (List.range 100).map (fun i => (toString i, ⟨Json.null, 0⟩))) : Cache).length ∧
    mapGet
      ((cacheKey "/e" [], (⟨Json.null, 150000⟩ : CacheEntry)) ::
        (List.range 100).map (fun i => (toString i, ⟨Json.null, 0⟩)))
      "0" = some ⟨Json.null, 0⟩ ∧
    150000 - (0 : Nat) > CACHE_TTL * 2 ∧
    (handle (some "k") ⟨some "/e", []⟩ 150000
      ((cacheKey "/e" [], (⟨Json.null, 150000⟩ : CacheEntry)) ::
        (List.range 100).map (fun i => (toString i, ⟨Json.null, 0⟩)))
      (fun _ _ => .err "down")).cacheAfter =
      ((cacheKey "/e" [], (⟨Json.null, 150000⟩ : CacheEntry)) ::
        (List.range 100).map (fun i => (toString i, ⟨Json.null, 0⟩))) := by
  have hhit := handle_eq_hit "k" ⟨some "/e", []⟩ 150000
    (((cacheKey "/e" [], (⟨Json.null, 150000⟩ : CacheEntry)) ::
        (List.range 100).map (fun i => (toString i, ⟨Json.null, 0⟩))))
    (fun _ _ => .err "down") ⟨Json.null, 150000⟩ rfl rfl (by decide)
  rw [hhit]
  exact ⟨rfl, rfl, by simp, rfl, by decide, rfl⟩

/-- C4 (amended): eviction happens only on the successful cache-miss path.
On every path, (1) an entry fresh at `now` (age below `CACHE_TTL`) is
still present afterwards and (2) an entry that disappeared had age above
`CACHE_TTL * 2`; and (3) on a successful miss whose post-write entry count
exceeds the soft capacity of 100 (pre-write count above 100, or at least
100 with the written key new), every entry older than `CACHE_TTL * 2` at a
key other than the one just written is evicted.  On the hit path no
eviction occurs (the cache is returned unchanged — see the
counterexample). -/
theorem eviction_age_bound_amended (apiKey : Option String) (req : ReqBody)
    (now : Nat) (c : Cache) (net : String → Nat → FetchOutcome)
    (hnd : keysNodup c) :
    (∀ k v, mapGet c k = some v → now - v.timestamp < CACHE_TTL →
      mapGet (handle apiKey req now c net).cacheAfter k = some v) ∧
    (∀ k v, mapGet c k = some v →
      mapGet (handle apiKey req now c net).cacheAfter k = none →
      now - v.timestamp > CACHE_TTL * 2) ∧
    ((handle apiKey req now c net).xCache = some "MISS" →
      (100 < c.length ∨ (100 ≤ c.length ∧
        mapGet c (cacheKey (req.endpoint.getD "") req.params) = none)) →
      ∀ k v, mapGet c k = some v → now - v.timestamp > CACHE_TTL * 2 →
        k ≠ cacheKey (req.endpoint.getD "") req.params →
        mapGet (handle apiKey req now c net).cacheAfter k = none) := by
  have unchanged :
      ∀ h : (handle apiKey req now c net).cacheAfter = c,
        ∀ hx : (handle apiKey req now c net).xCache ≠ some "MISS",
        (∀ k v, mapGet c k = some v → now - v.timestamp < CACHE_TTL →
          mapGet (handle apiKey req now c net).cacheAfter k = some v) ∧
        (∀ k v, mapGet c k = some v →
          mapGet (handle apiKey req now c net).cacheAfter k = none →
          now - v.timestamp > CACHE_TTL * 2) ∧
        ((handle apiKey req now c net).xCache = some "MISS" →
          (100 < c.length ∨ (100 ≤ c.length ∧
            mapGet c (cacheKey (req.endpoint.getD "") req.params) = none)) →
          ∀ k v, mapGet c k = some v → now - v.timestamp > CACHE_TTL * 2 →
            k ≠ cacheKey (req.endpoint.getD "") req.params →
            mapGet (handle apiKey req now c net).cacheAfter k = none) := by
    intro h hx
    refine ⟨fun k v hv _ => by rw [h]; exact hv,
      fun k v hv hn => absurd (h ▸ hn) (by rw [hv]; simp),
      fun hm => absurd hm hx⟩
  rcases handle_shape apiKey req now c net with
    ⟨_, h⟩ | ⟨key, _, _, h⟩ | ⟨key, e, _, _, _, _, h⟩ | ⟨key, hk, hf, hstale0, h⟩
  · exact unchanged (by rw [h]) (by rw [h]; simp)
  · exact unchanged (by rw [h]) (by rw [h]; simp)
  · exact unchanged (by rw [h]) (by rw [h]; simp)
  · subst hk
    rcases handleMiss_shape key (req.endpoint.getD "") req.params
        (cacheKey (req.endpoint.getD "") req.params) now c net with
      ⟨m, _, hm⟩ | ⟨r, _, _, hm⟩ | ⟨r, m, _, _, _, hm⟩ | ⟨r, data, _, _, _, hm⟩
    · exact unchanged (by rw [h, hm]) (by rw [h, hm]; simp)
    · exact unchanged (by rw [h, hm]) (by rw [h, hm]; simp)
    · exact unchanged (by rw [h, hm]) (by rw [h, hm]; simp)
    · rw [h, hm]
      dsimp only
      set ck := cacheKey (req.endpoint.getD "") req.params with hck
      refine ⟨?_, ?_, ?_⟩
      · -- fresh entries survive
        intro k v hv hfr
        have hne : ck ≠ k := by
          intro hkk
          have := hstale0 v (hkk ▸ hv)
          omega
        have h1 : mapGet (mapSet c ck ⟨data, now⟩) k = some v := by
          rw [mapGet_mapSet_ne c k ck ⟨data, now⟩ hne]; exact hv
        by_cases hlen : (mapSet c ck ⟨data, now⟩).length > 100
        · rw [if_pos hlen]
          exact mapGet_mapSweep_kept _ now k v h1 (by omega)
        · rw [if_neg hlen]; exact h1
      · -- a vanished entry was older than 2×TTL
        intro k v hv hn
        by_cases hkk : ck = k
        · exfalso
          subst hkk
          have h1 := mapGet_mapSet_self c ck ⟨data, now⟩
          by_cases hlen : (mapSet c ck ⟨data, now⟩).length > 100
          · rw [if_pos hlen] at hn
            rw [mapGet_mapSweep_kept _ now ck _ h1 (by simp)] at hn
            exact Option.noConfusion hn
          · rw [if_neg hlen] at hn
            rw [h1] at hn
            exact Option.noConfusion hn
        · have h1 : mapGet (mapSet c ck ⟨data, now⟩) k = some v := by
            rw [mapGet_mapSet_ne c k ck ⟨data, now⟩ hkk]; exact hv
          by_cases hlen : (mapSet c ck ⟨data, now⟩).length > 100
          · rw [if_pos hlen] at hn
            exact mapGet_mapSweep_gone _ now k v h1 hn
          · rw [if_neg hlen] at hn
            rw [h1] at hn
            exact Option.noConfusion hn
      · -- over post-write capacity, stale entries at other keys are evicted
        intro _ hcap k v hv hstale hne
        have h1 : mapGet (mapSet c ck ⟨data, now⟩) k = some v := by
          rw [mapGet_mapSet_ne c k ck ⟨data, now⟩ (fun hkk => hne hkk.symm)]
          exact hv
        have hlen2 : (mapSet c ck ⟨data, now⟩).length > 100 := by
          rcases hcap with hlen | ⟨h100, habs⟩
          · exact lt_of_lt_of_le hlen (mapSet_length_ge c ck ⟨data, now⟩)
          · rw [mapSet_length_absent c ck ⟨data, now⟩ habs]
            omega
        rw [if_pos hlen2]
        exact mapGet_mapSweep_stale _ now k v
          (mapSet_keysNodup c ck ⟨data, now⟩ hnd) h1 hstale

/-- Witness for C4 (amended): a concrete cache holding a fresh and a very
stale entry. -/
theorem eviction_age_bound_amended_witness :
    keysNodup [("a", ⟨Json.null, 5⟩), ("b", ⟨Json.null, 0⟩)] ∧
    ((∀ k v, mapGet [("a", ⟨Json.null, 5⟩), ("b", ⟨Json.null, 0⟩)] k = some v →
        (5 : Nat) - v.timestamp < CACHE_TTL →
        mapGet (handle (some "k") ⟨some "/e", []⟩ 5
          [("a", ⟨Json.null, 5⟩), ("b", ⟨Json.null, 0⟩)]
          (fun _ _ => .ok 200 "0" (.ok .null))).cacheAfter k = some v) ∧
      (∀ k v, mapGet [("a", ⟨Json.null, 5⟩), ("b", ⟨Json.null, 0⟩)] k = some v →
        mapGet (handle (some "k") ⟨some "/e", []⟩ 5
          [("a", ⟨Json.null, 5⟩), ("b", ⟨Json.null, 0⟩)]
          (fun _ _ => .ok 200 "0" (.ok .null))).cacheAfter k = none →
        (5 : Nat) - v.timestamp > CACHE_TTL * 2) ∧
      ((handle (some "k") ⟨some "/e", []⟩ 5
          [("a", ⟨Json.null, 5⟩), ("b", ⟨Json.null, 0⟩)]
          (fun _ _ => .ok 200 "0" (.ok .null))).xCache = some "MISS" →
        (100 < ([("a", ⟨Json.null, 5⟩), ("b", ⟨Json.null, 0⟩)] : Cache).length ∨
          (100 ≤ ([("a", ⟨Json.null, 5⟩), ("b", ⟨Json.null, 0⟩)] : Cache).length ∧
            mapGet [("a", ⟨Json.null, 5⟩), ("b", ⟨Json.null, 0⟩)]
              (cacheKey "/e" []) = none)) →
        ∀ k v, mapGet [("a", ⟨Json.null, 5⟩), ("b", ⟨Json.null, 0⟩)] k = some v →
          (5 : Nat) - v.timestamp > CACHE_TTL * 2 →
          k ≠ cacheKey "/e" [] →
          mapGet (handle (some "k") ⟨some "/e", []⟩ 5
            [("a", ⟨Json.null, 5⟩), ("b", ⟨Json.null, 0⟩)]
            (fun _ _ => .ok 200 "0" (.ok .null))).cacheAfter k = none)) := by
  have hnd : keysNodup [("a", (⟨Json.null, 5⟩ : CacheEntry)), ("b", ⟨Json.null, 0⟩)] := by
    simp [keysNodup]
  exact ⟨hnd, eviction_age_bound_amended (some "k") ⟨some "/e", []⟩ 5
    [("a", ⟨Json.null, 5⟩), ("b", ⟨Json.null, 0⟩)]
    (fun _ _ => .ok 200 "0" (.ok .null)) hnd⟩

/-- C5: on every failure path (missing endpoint, missing credential,
upstream non-2xx after retries, network error after retries, JSON parse
failure) the cache is left unchanged; and if the failed request reached the
upstream (made at least one fetch), any identical later request performs
the full fetch-and-retry sequence again (at least one fetch) instead of
replaying a cached failure. -/
theorem errors_not_cached (apiKey : Option String) (req : ReqBody)
    (now : Nat) (c : Cache) (net : String → Nat → FetchOutcome)
    (hfail : (handle apiKey req now c net).status ≠ 200) :
    (handle apiKey req now c net).cacheAfter = c ∧
    (1 ≤ (handle apiKey req now c net).attempts →
      ∀ t2 net2, now ≤ t2 → 1 ≤ (handle apiKey req t2 c net2).attempts) := by
  rcases handle_shape apiKey req now c net with
    ⟨_, h⟩ | ⟨key, _, _, h⟩ | ⟨key, e, _, _, _, _, h⟩ | ⟨key, hk, hf, hstale0, h⟩
  · exact ⟨by rw [h], fun hatt => by rw [h] at hatt; simp at hatt⟩
  · exact ⟨by rw [h], fun hatt => by rw [h] at hatt; simp at hatt⟩
  · exact absurd (by rw [h]) hfail
  · subst hk
    have hlater : ∀ t2 net2, now ≤ t2 → 1 ≤ (handle (some key) req t2 c net2).attempts := by
      intro t2 net2 h2
      have hstale2 : ∀ e, mapGet c (cacheKey (req.endpoint.getD "") req.params) = some e →
          CACHE_TTL ≤ t2 - e.timestamp := by
        intro e he
        have := hstale0 e he
        omega
      rw [handle_eq_miss key req t2 c net2 hf hstale2, handleMiss_attempts]
      exact fetchWithRetry_attempts_pos _ 0
    rcases handleMiss_shape key (req.endpoint.getD "") req.params
        (cacheKey (req.endpoint.getD "") req.params) now c net with
      ⟨m, _, hm⟩ | ⟨r, _, _, hm⟩ | ⟨r, m, _, _, _, hm⟩ | ⟨r, data, _, _, _, hm⟩
    · exact ⟨by rw [h, hm], fun _ => hlater⟩
    · exact ⟨by rw [h, hm], fun _ => hlater⟩
    · exact ⟨by rw [h, hm], fun _ => hlater⟩
    · exact absurd (by rw [h, hm]) hfail

/-- Witness for C5: a concrete request failing with an upstream 404. -/
theorem errors_not_cached_witness :
    (handle (some "k") ⟨some "/e", []⟩ 0 []
        (fun _ _ => .ok 404 "not found" (.error "nf"))).status ≠ 200 ∧
    (handle (some "k") ⟨some "/e", []⟩ 0 []
        (fun _ _ => .ok 404 "not found" (.error "nf"))).cacheAfter = [] ∧
    (1 ≤ (handle (some "k") ⟨some "/e", []⟩ 0 []
        (fun _ _ => .ok 404 "not found" (.error "nf"))).attempts →
      ∀ t2 net2, (0 : Nat) ≤ t2 →
        1 ≤ (handle (some "k") ⟨some "/e", []⟩ t2 [] net2).attempts) := by
  have hfail : (handle (some "k") ⟨some "/e", []⟩ 0 []
      (fun _ _ => .ok 404 "not found" (.error "nf"))).status ≠ 200 := by
    simp [handle, handleMiss, fetchWithRetry, respOk, endpointFalsy, mapGet]
  exact ⟨hfail, errors_not_cached (some "k") ⟨some "/e", []⟩ 0 []
    (fun _ _ => .ok 404 "not found" (.error "nf")) hfail⟩

/-- C10: a 2xx upstream response whose body fails to parse as JSON makes
the handler throw inside `response.json()`; the top-level catch returns
HTTP 500 with `{ error: "Proxy error", message: <parse error> }` and the
cache is unchanged (the entry is written only after parsing succeeds). -/
theorem invalid_json_500 (key : String) (req : ReqBody) (now : Nat)
    (c : Cache) (net : String → Nat → FetchOutcome) (r : Resp) (m : String)
    (hf : endpointFalsy req.endpoint = false)
    (hstale : ∀ e, mapGet c (cacheKey (req.endpoint.getD "") req.params) = some e →
      CACHE_TTL ≤ now - e.timestamp)
    (hr : (fetchWithRetry (net (fullUrlOf key (req.endpoint.getD "") req.params)) 0).result
      = .ok r)
    (hok : respOk r.status = true)
    (hp : r.parsed = .error m) :
    handle (some key) req now c net =
      ⟨500, none, .errorBody "Proxy error" (some m) none, c,
        (fetchWithRetry (net (fullUrlOf key (req.endpoint.getD "") req.params)) 0).attempts,
        (fetchWithRetry (net (fullUrlOf key (req.endpoint.getD "") req.params)) 0).delays⟩ := by
  rw [handle_eq_miss key req now c net hf hstale]
  simp [handleMiss, hr, hok, hp]

/-- Witness for C10: a concrete 200 response with an unparsable body. -/
theorem invalid_json_500_witness :
    handle (some "k") ⟨some "/e", []⟩ 0 []
        (fun _ _ => .ok 200 "<html>" (.error "bad json")) =
      ⟨500, none, .errorBody "Proxy error" (some "bad json") none, [], 1, []⟩ := by
  have h := invalid_json_500 "k" ⟨some "/e", []⟩ 0 []
    (fun _ _ => .ok 200 "<html>" (.error "bad json"))
    ⟨200, "<html>", .error "bad json"⟩ "bad json" rfl
    (fun e he => by simp [mapGet] at he)
    (by simp [fetchWithRetry]) (by decide) rfl
  rw [h]
  simp [fetchWithRetry]

/-! ### C8: credential confidentiality -/

/-- Character-list prefix test. -/
def prefB : List Char → List Char → Bool
  | [], _ => true
  | _ :: _, [] => false
  | a :: as, b :: bs => a == b && prefB as bs

/-- Character-list substring test. -/
def subListB (needle : List Char) : List Char → Bool
  | [] => prefB needle []
  | b :: bs => prefB needle (b :: bs) || subListB needle bs

/-- Does `hay` contain `needle` as a contiguous substring? -/
def strContains (hay needle : String) : Bool :=
  subListB needle.data hay.data

/-- Substring occurrence in an optional string field. -/
def optMentions (key : String) : Option String → Bool
  | some s => strContains s key
  | none => false

/-- Does the credential occur in a string field of the response body?
(C8 is about failure paths, whose bodies are `errorBody` values.) -/
def bodyMentions (key : String) : RespBody → Bool
  | .payload _ => false
  | .errorBody e m ep =>
      strContains e key || optMentions key m || optMentions key ep

/-- The strings an upstream outcome contributes to error responses (its
text body, the error label built from its status, its parse-error message,
or its thrown message) are free of the credential. -/
def outcomeClean (key : String) : FetchOutcome → Prop
  | .ok status text parsed =>
      strContains ("API Error: " ++ toString status) key = false ∧
      strContains text key = false ∧
      (match parsed with
       | .error m => strContains m key = false
       | .ok _ => True)
  | .err msg => strContains msg key = false

/-- C8 counterexample: the claim fails as stated.  On the upstream-error
path the upstream's text body is copied verbatim into the response's
`message` field, so an upstream that echoes the credential (here: a 404
whose body is the key itself, as happens when an upstream echoes the
requested URL) puts the configured credential in the failure response. -/
theorem credential_in_failure_body_cx :
    (handle (some "SECRET") ⟨some "/e", []⟩ 0 []
        (fun _ _ => .ok 404 "SECRET" (.error "nf"))).status ≠ 200 ∧
    bodyMentions "SECRET"
      (handle (some "SECRET") ⟨some "/e", []⟩ 0 []
        (fun _ _ => .ok 404 "SECRET" (.error "nf"))).body = true := by
  have hb : handle (some "SECRET") ⟨some "/e", []⟩ 0 []
      (fun _ _ => .ok 404 "SECRET" (.error "nf")) =
      ⟨404, none, .errorBody ("API Error: " ++ toString 404) (some "SECRET") (some "/e"),
        [], 1, []⟩ := by
    simp [handle, handleMiss, fetchWithRetry, respOk, endpointFalsy, mapGet]
  rw [hb]
  exact ⟨by decide, by decide⟩

/-- C8 (amended): the proxy itself never inserts the credential into a
failure response.  Provided the credential occurs in none of the strings
the upstream or the caller contribute (upstream text bodies, status-based
error labels, parse-error and thrown messages, the caller's endpoint) nor
in the fixed literals `"Endpoint is required"` / `"Proxy error"`, then no
string field of any failure response contains it.  (As stated the claim is
false: upstream text and thrown messages are echoed verbatim — see the
counterexample.) -/
theorem credential_confidentiality_amended (key : String) (req : ReqBody)
    (now : Nat) (c : Cache) (net : String → Nat → FetchOutcome)
    (hnet : ∀ url n, outcomeClean key (net url n))
    (hep : optMentions key req.endpoint = false)
    (hfix1 : strContains "Endpoint is required" key = false)
    (hfix2 : strContains "Proxy error" key = false)
    (hfail : (handle (some key) req now c net).status ≠ 200) :
    bodyMentions key (handle (some key) req now c net).body = false := by
  have hepD : strContains (req.endpoint.getD "") key = false ∨
      endpointFalsy req.endpoint = true := by
    rcases hq : req.endpoint with _ | s
    · exact .inr rfl
    · left
      rw [hq] at hep
      simpa [optMentions] using hep
  rcases handle_shape (some key) req now c net with
    ⟨hk, _⟩ | ⟨key2, _, _, h⟩ | ⟨key2, e, _, _, _, _, h⟩ | ⟨key2, hk2, hf, hstale, h⟩
  · exact Option.noConfusion hk
  · rw [h]
    simp [bodyMentions, optMentions, hfix1]
  · rw [h] at hfail
    simp at hfail
  · obtain rfl : key = key2 := by injection hk2
    have hendp : strContains (req.endpoint.getD "") key = false := by
      rcases hepD with h1 | h1
      · exact h1
      · rw [hf] at h1; exact Bool.noConfusion h1
    rcases handleMiss_shape key (req.endpoint.getD "") req.params
        (cacheKey (req.endpoint.getD "") req.params) now c net with
      ⟨m, hr, hm⟩ | ⟨r, hr, hok, hm⟩ | ⟨r, m, hr, hok, hp, hm⟩ | ⟨r, data, hr, hok, hp, hm⟩
    · rw [h, hm]
      have hclean : strContains m key = false := by
        rcases fetchWithRetry_result_from
            (net (fullUrlOf key (req.endpoint.getD "") req.params)) 0 with
          ⟨n, s, t, p, ho, hres⟩ | ⟨n, m2, ho, hres⟩
        · rw [hr] at hres; exact Except.noConfusion hres
        · rw [hr] at hres
          obtain rfl : m = m2 := by injection hres
          have := hnet (fullUrlOf key (req.endpoint.getD "") req.params) n
          rw [ho] at this
          exact this
      simp [bodyMentions, optMentions, hfix2, hclean]
    · rw [h, hm]
      have hclean : strContains ("API Error: " ++ toString r.status) key = false ∧
          strContains r.text key = false := by
        rcases fetchWithRetry_result_from
            (net (fullUrlOf key (req.endpoint.getD "") req.params)) 0 with
          ⟨n, s, t, p, ho, hres⟩ | ⟨n, m2, ho, hres⟩
        · rw [hr] at hres
          obtain rfl : r = ⟨s, t, p⟩ := by injection hres
          have := hnet (fullUrlOf key (req.endpoint.getD "") req.params) n
          rw [ho] at this
          exact ⟨this.1, this.2.1⟩
        · rw [hr] at hres; exact Except.noConfusion hres
      simp [bodyMentions, optMentions, hclean.1, hclean.2, hendp]
    · rw [h, hm]
      have hclean : strContains m key = false := by
        rcases fetchWithRetry_result_from
            (net (fullUrlOf key (req.endpoint.getD "") req.params)) 0 with
          ⟨n, s, t, p, ho, hres⟩ | ⟨n, m2, ho, hres⟩
        · rw [hr] at hres
          obtain rfl : r = ⟨s, t, p⟩ := by injection hres
          have := hnet (fullUrlOf key (req.endpoint.getD "") req.params) n
          rw [ho] at this
          have h3 := this.2.2
          have hp2 : p = Except.error m := hp
          rw [hp2] at h3
          exact h3
        · rw [hr] at hres; exact Except.noConfusion hres
      simp [bodyMentions, optMentions, hfix2, hclean]
    · rw [h, hm] at hfail
      simp at hfail

/-- Witness for C8 (amended): a concrete failure whose upstream does not
echo the credential. -/
theorem credential_confidentiality_amended_witness :
    bodyMentions "SECRET"
      (handle (some "SECRET") ⟨some "/e", []⟩ 0 []
        (fun _ _ => .ok 404 "not found" (.error "nf"))).body = false :=
  credential_confidentiality_amended "SECRET" ⟨some "/e", []⟩ 0 []
    (fun _ _ => .ok 404 "not found" (.error "nf"))
    (fun _ _ => ⟨by decide, by decide, by decide⟩)
    (by decide) (by decide) (by decide)
    (by simp [handle, handleMiss, fetchWithRetry, respOk, endpointFalsy, mapGet])
